import Mathlib

/-!
Verification of the bible_agent repository's core layer: reference
resolution, result caching, and the agent's greeting / cache-key /
HTTP-error handling, embedded shallowly in Lean.

The repository ships `utils/__init__.py` importing `VerseParser` and
`CacheManager`, but `utils/verse_parser.py` and `utils/cache.py` are
absent from the sources; those two components are modelled from the
specification (each such definition is marked `Modelled from the spec:`).
Everything else is translated from the Python sources in
`src/bible_agent/` and `config/`.
-/

namespace BibleAgent

/-! ## Characters and basic string machinery (List Char based) -/

/-- ASCII lowercase conversion of a single character, as Python's
`str.lower` acts on ASCII input ('A'–'Z' are code points 65–90; adding
32 reaches 'a'–'z'). -/
def lowerChar (c : Char) : Char :=
  if 65 ≤ c.toNat ∧ c.toNat ≤ 90 then Char.ofNat (c.toNat + 32) else c

/-- Whitespace as recognized by Python's `str.split()` / `str.strip()`
on the ASCII range: space (32), tab (9), newline (10), carriage
return (13). -/
def isWs (c : Char) : Bool :=
  decide (c.toNat = 32 ∨ c.toNat = 9 ∨ c.toNat = 10 ∨ c.toNat = 13)

/-- Decimal digit test ('0'–'9' are code points 48–57). -/
def isDigitCh (c : Char) : Bool :=
  decide (48 ≤ c.toNat ∧ c.toNat ≤ 57)

/-- Split a character list on whitespace, discarding empty tokens
(the behaviour of Python's `str.split()` with no argument). `cur` is
the token accumulated so far. -/
def splitWsAux : List Char → List Char → List (List Char)
  | [], cur => if cur = [] then [] else [cur]
  | c :: rest, cur =>
    if isWs c then
      if cur = [] then splitWsAux rest [] else cur :: splitWsAux rest []
    else
      splitWsAux rest (cur ++ [c])

def splitWs (l : List Char) : List (List Char) := splitWsAux l []

/-- Split on a separator character, keeping empty fields (Python's
`str.split(sep)`). -/
def splitSepAux (sep : Char) : List Char → List Char → List (List Char)
  | [], cur => [cur]
  | c :: rest, cur =>
    if c = sep then cur :: splitSepAux sep rest []
    else splitSepAux sep rest (cur ++ [c])

def splitSep (sep : Char) (l : List Char) : List (List Char) :=
  splitSepAux sep l []

/-- Strip leading and trailing whitespace (Python's `str.strip()`). -/
def stripWs (l : List Char) : List Char :=
  ((l.dropWhile (fun c => isWs c)).reverse.dropWhile (fun c => isWs c)).reverse

/-- Substring containment on character lists, the semantics of Python's
`pattern in text`. -/
def containsSub : List Char → List Char → Bool
  | s, p =>
    if p.isPrefixOf s then true
    else
      match s with
      | [] => false
      | _ :: t => containsSub t p

/-- Number of occurrences of a character. -/
def countCh (c : Char) (l : List Char) : Nat :=
  l.countP (fun x => x = c)

/-! ## Decimal rendering and parsing -/

/-- Character for a digit value. -/
def digitCh (d : Nat) : Char := Char.ofNat (48 + d)

/-- Fuel-indexed most-significant-first decimal rendering (structural
recursion so that it reduces in the kernel; `natChars_eq` below ties it
to `Nat.digits`). -/
def natCharsAux : Nat → Nat → List Char
  | 0, _ => []
  | fuel + 1, n =>
    if n = 0 then [] else natCharsAux fuel (n / 10) ++ [digitCh (n % 10)]

/-- Most-significant-first decimal digit characters of `n`
(empty for `0`; all numbers in scripture references are positive). -/
def natChars (n : Nat) : List Char := natCharsAux n n

/-- Numeric value of a most-significant-first digit-character list, the
way a base-10 integer parse accumulates it. -/
def charsVal (l : List Char) : Nat :=
  l.foldl (fun a c => a * 10 + (c.toNat - 48)) 0

/-! ## ReferenceResolver data model

Modelled from the spec: `utils/verse_parser.py` (class `VerseParser`,
method `extract_verse_reference`) is imported by `utils/__init__.py` and
called by `BibleAgent.assist`, but the file itself is not in the sources.
The definitions below follow spec §3 (CanonicalReference), §4.1
(resolution algorithm) and §6 (book-name mapping table). -/

/-- Spec §3: a canonical scripture reference. `book` is the normalized
full name; `verseEnd` absent means a single verse. Equality is
structural. -/
structure CanonicalReference where
  book : String
  chapter : Nat
  verseStart : Nat
  verseEnd : Option Nat
deriving DecidableEq, Repr

/-- Modelled from the spec: the abbreviation → canonical-full-name
mapping table of §6 (representative entries: `Matthew↔{Matt, Mt}`,
`Mark↔{Mk}`, `John↔{Jn}` distinct from `1 John`/`2 John`/`3 John`,
`1 Corinthians↔{1 Cor, 1Co}`, `Psalm↔{Ps, Psalms}`, `Romans↔{Rom}`),
plus the books named elsewhere in the spec and the agent's own examples
(`2 Timothy`, `Philippians`). Each full name maps to itself. -/
def bookTable : List (String × List String) :=
  [ ("Matthew", ["Matthew", "Matt", "Mt"])
  , ("Mark", ["Mark", "Mk"])
  , ("John", ["John", "Jn"])
  , ("1 John", ["1 John", "1 Jn"])
  , ("2 John", ["2 John", "2 Jn"])
  , ("3 John", ["3 John", "3 Jn"])
  , ("1 Corinthians", ["1 Corinthians", "1 Cor", "1Co"])
  , ("2 Timothy", ["2 Timothy", "2 Tim"])
  , ("Psalm", ["Psalm", "Ps", "Psalms"])
  , ("Romans", ["Romans", "Rom"])
  , ("Philippians", ["Philippians", "Phil", "Php"])
  ]

/-- Strip one trailing period, the spec's tolerance for dotted
abbreviations ("Matt." matches "Matt"). -/
def stripDot (l : List Char) : List Char :=
  match l.reverse with
  | '.' :: r => r.reverse
  | _ => l

/-- Normalize one token for table lookup: lowercase, then drop a single
trailing period (spec §4.1 step 2: case-insensitive, tolerant of a
trailing period). -/
def normTok (l : List Char) : List Char :=
  stripDot (l.map lowerChar)

/-- Look a normalized key up in the mapping table: it matches an entry
when it equals one of the entry's abbreviations lowercased. Returns the
canonical full name. -/
def lookupBook (k : List Char) : Option String :=
  (bookTable.find? (fun e =>
    e.2.any (fun ab => (ab.toList.map lowerChar) = k))).map (·.1)

/-- Is this token a numbered-book prefix ("1", "2" or "3")? -/
def isBookNum (t : List Char) : Bool :=
  t = ['1'] || t = ['2'] || t = ['3']

/-- Outcome of parsing a candidate `<chapter>:<verse>[-<verse>]` token.
`notCV` means the token is not of that shape (the candidate is skipped,
scanning continues); `malformed` is a syntactically well-formed range
`a-b` with `b < a` (spec §4.1 step 4: treated as NotFound). -/
inductive CVParse
  | notCV
  | malformed
  | ok (chapter verse : Nat) (verseEnd : Option Nat)
deriving DecidableEq, Repr

/-- A nonempty all-digit token. -/
def isNumTok (l : List Char) : Bool :=
  !l.isEmpty && l.all isDigitCh

/-- Modelled from the spec: parse a `<chapter>:<verse>[-<verse>]` token
(§4.1 steps 1, 3, 4). The colon must directly join chapter and verse;
chapter and verse are base-10 integers, zero values rejected; a range
`a-b` with `b < a` is malformed. -/
def parseCV (l : List Char) : CVParse :=
  match splitSep ':' l with
  | [cs, vs] =>
    if isNumTok cs then
      match splitSep '-' vs with
      | [v1] =>
        if isNumTok v1 then
          let c := charsVal cs
          let a := charsVal v1
          if 0 < c ∧ 0 < a then .ok c a none else .notCV
        else .notCV
      | [v1, v2] =>
        if isNumTok v1 && isNumTok v2 then
          let c := charsVal cs
          let a := charsVal v1
          let b := charsVal v2
          if 0 < c ∧ 0 < a ∧ 0 < b then
            if b < a then .malformed else .ok c a (some b)
          else .notCV
        else .notCV
      | _ => .notCV
    else .notCV
  | _ => .notCV

/-- Outcome of trying to read a reference starting at one token
position. -/
inductive Cand
  | no
  | bad
  | found (r : CanonicalReference)
deriving DecidableEq, Repr

/-- Try a single-token book name at `t` followed by a chapter:verse
token. -/
def candSingle (t : List Char) (rest : List (List Char)) : Cand :=
  match rest with
  | t2 :: _ =>
    match lookupBook (normTok t) with
    | some book =>
      match parseCV t2 with
      | .ok c v e => .found ⟨book, c, v, e⟩
      | .malformed => .bad
      | .notCV => .no
    | none => .no
  | [] => .no

/-- Modelled from the spec: candidate match at one position. A leading
digit token adjacent to a book word is tried as a numbered book first
(§4.1 edge case: numbered-book detection takes precedence). -/
def candAt (t : List Char) (rest : List (List Char)) : Cand :=
  match rest with
  | t2 :: t3 :: _ =>
    if isBookNum t then
      match lookupBook (normTok t ++ ' ' :: normTok t2) with
      | some book =>
        match parseCV t3 with
        | .ok c v e => .found ⟨book, c, v, e⟩
        | .malformed => .bad
        | .notCV => .no
      | none => candSingle t rest
    else candSingle t rest
  | _ => candSingle t rest

/-- Modelled from the spec: left-to-right scan over the token list
(§4.1 step 5: first syntactically valid match wins; step 4: a malformed
range is NotFound; step 6: no table match at all is NotFound). -/
def resolveTokens : List (List Char) → Option CanonicalReference
  | [] => none
  | t :: rest =>
    match candAt t rest with
    | .found r => some r
    | .bad => none
    | .no => resolveTokens rest

/-- Resolution on raw character lists: tokenize on whitespace, scan. -/
def resolveChars (l : List Char) : Option CanonicalReference :=
  resolveTokens (splitWs l)

/-- Modelled from the spec: `VerseParser.extract_verse_reference`,
i.e. §4.1 `resolve(text) -> CanonicalReference | NotFound` (`none` is
NotFound/ParseMiss). -/
def resolve (s : String) : Option CanonicalReference :=
  resolveChars s.toList

/-- A positive integer rendered as a string. -/
def natStr (n : Nat) : String := ⟨natChars n⟩

/-- The canonical reference's textual form, `"<book> C:V[-E]"` — the
string the resolver hands back to the agent (the agent passes it
verbatim to `BibleService.get_verse` and into the cache key). -/
def refText (r : CanonicalReference) : String :=
  ⟨r.book.toList ++ ' ' :: natChars r.chapter ++ ':' :: natChars r.verseStart ++
    (match r.verseEnd with
     | none => []
     | some e => '-' :: natChars e)⟩

/-! ## ResultCache model

Modelled from the spec: `utils/cache.py` (class `CacheManager`,
constructed with a cache directory and a TTL, methods `get`/`set`) is
imported by `utils/__init__.py` and used by `BibleAgent.assist`, but the
file itself is not in the sources. The definitions below follow spec §3
(CacheEntry and its validity invariant), §4.2 (contract, atomic
publish, failure policy) and §5 (interleaving model). -/

/-- Spec §3: the persisted cache record. `payload` is opaque bytes. -/
structure CacheEntry where
  key : String
  payload : List Nat
  createdAt : Nat
  ttl : Nat
deriving DecidableEq, Repr

/-- What the durable store holds under one key's storage name: nothing,
a parseable entry, a corrupted/unparseable blob, or a unit the backend
cannot read (I/O failure on read). -/
inductive FileState
  | absent
  | good (e : CacheEntry)
  | corrupt
  | unreadable
deriving DecidableEq, Repr

/-- The durable store: one addressable unit per key (spec §6). -/
def Store : Type := String → FileState

/-- Spec §3: an entry is valid iff `now < createdAt + ttl`. -/
def entryValid (e : CacheEntry) (now : Nat) : Bool :=
  now < e.createdAt + e.ttl

/-- Modelled from the spec: `CacheManager.get` (§4.2). Reads the key's
unit; an absent unit, an expired entry, a corrupted payload, or an
unreadable unit all degrade to Miss (`none`); only a valid entry's
payload is returned. -/
def cacheGet (st : Store) (k : String) (now : Nat) : Option (List Nat) :=
  match st k with
  | .good e => if entryValid e now then some e.payload else none
  | _ => none

/-- Result of a `set`: success, or a reported (non-fatal) error. -/
inductive SetResult
  | success
  | error
deriving DecidableEq, Repr

/-- Modelled from the spec: `CacheManager.set` (§4.2). `writable`
models whether the underlying storage accepts the write; on failure the
store is untouched and an Error is reported — never raised (the
function is total). On success the entry fully replaces any previous
one under the key. -/
def cacheSet (st : Store) (k : String) (p : List Nat) (ttl : Nat)
    (now : Nat) (writable : Bool) : Store × SetResult :=
  if writable then
    (fun k' => if k' = k then .good ⟨k, p, now, ttl⟩ else st k', .success)
  else
    (st, .error)

/-! ### Atomic-publish interleaving model (spec §4.2 durability, §5)

Modelled from the spec: N writers race on one key. Each writer `i`
writes its serialized payload into a private temporary unit one byte at
a time (`write i` steps), and only once the temporary unit holds the
complete payload does it atomically publish it under the real key
(`publish i`, the rename step). A reader only ever reads the published
unit. -/

/-- Shared state for one key: each writer's temporary unit contents and
the published unit. -/
structure RaceState (n : Nat) where
  temp : Fin n → List Nat
  final : Option (List Nat)

/-- One atomic storage action. -/
inductive RaceAction (n : Nat)
  | write (i : Fin n)
  | publish (i : Fin n)

/-- Modelled from the spec: one step of the write-to-temp-then-rename
protocol. `write i` appends the next byte of writer `i`'s payload to its
temporary unit; `publish i` renames the temporary unit onto the real key
— the writer only reaches the rename after finishing its writes, so the
publish is guarded on the temporary unit being complete. -/
def raceStep (pay : Fin n → List Nat) (s : RaceState n) :
    RaceAction n → RaceState n
  | .write i =>
    { s with temp := fun j =>
        if j = i then (pay i).take ((s.temp i).length + 1) else s.temp j }
  | .publish i =>
    if s.temp i = pay i then { s with final := some (pay i) } else s

/-- Run a whole interleaving. -/
def raceRun (pay : Fin n → List Nat) (s : RaceState n)
    (tr : List (RaceAction n)) : RaceState n :=
  tr.foldl (raceStep pay) s

/-- What a concurrent reader observes: the published unit, whole
(the rename swaps it atomically). -/
def raceRead (s : RaceState n) : Option (List Nat) := s.final

/-! ## BibleAgent (from `src/bible_agent/agent.py`) -/

/-- The list `BibleAgent.GREETING_PATTERNS` (agent.py lines 31–39). -/
def GREETING_PATTERNS : List String :=
  ["who are you", "what can you do", "hello", "hi", "hey", "help", "about"]

/-- Model of `BibleAgent._is_greeting` (agent.py lines 201–207): the lowercased
prompt contains some pattern as a substring. -/
def is_greeting (prompt : List Char) : Bool :=
  GREETING_PATTERNS.any (fun pat => containsSub (prompt.map lowerChar) pat.toList)

/-- The cache key built in `BibleAgent.assist` (agent.py line 109):
`f"{verse_reference}:{user_prompt}"`. The same `cache_key` value is
passed to both `cache_manager.get` (line 111) and `cache_manager.set`
(line 186). -/
def cacheKey (verse_reference user_prompt : String) : String :=
  ⟨verse_reference.toList ++ ':' :: user_prompt.toList⟩

/-- The front part of `BibleAgent.assist`'s control flow (agent.py
lines 86–122): strip the prompt; a greeting is answered at once and the
method returns before any reference resolution or cache access; with no
reference an INFO message is emitted and the method returns; otherwise
the flow proceeds to the cache/API path carrying the resolved reference
and the cache key. -/
inductive AssistStep
  | greeting
  | noReference
  | proceed (verse_reference : String) (cache_key : String)
deriving DecidableEq, Repr

/-- Model of `BibleAgent.assist` up to the point where external services come
into play (agent.py lines 86–122; the resolver call is the
spec-modelled `resolve`). -/
def assistFront (prompt : String) : AssistStep :=
  let user_prompt : String := ⟨stripWs prompt.toList⟩
  if is_greeting user_prompt.toList then .greeting
  else
    match resolve user_prompt with
    | none => .noReference
    | some r => .proceed (refText r) (cacheKey (refText r) user_prompt)

/-! ## BibleService.get_verse (from `src/bible_agent/bible_service.py`) -/

/-- A Python dict with string keys and string values — enough to model
the error dicts `get_verse` builds (the 200-branch payload is carried
opaquely). -/
def PyDict : Type := List (String × String)

/-- Exceptions relevant to `get_verse`'s try/except chain. -/
inductive PyExc
  | clientConnectionError
  | timeoutError
  | otherError
  | typeErrorBadExceptClause
deriving DecidableEq, Repr

/-- Outcome of the awaited HTTP request inside `get_verse`: a response
with a status code (200 carrying parsed JSON, modelled opaquely as a
`PyDict`), or an exception propagating out of the request. -/
inductive FetchOutcome
  | status (code : Nat) (data : PyDict)
  | raised (e : PyExc)

/-- The except-clause chain of `get_verse` (bible_service.py lines
75–97), modelled with CPython's exception-matching semantics. The first
clause `except aiohttp.ClientConnectionError` matches connection
errors. The second clause is `except aiohttp.ClientTimeout` — but
`aiohttp.ClientTimeout` is the timeout-configuration dataclass (the
same class the function instantiates at line 39 as
`aiohttp.ClientTimeout(total=...)`), not a `BaseException` subclass, so
when any exception reaches this clause CPython raises
`TypeError: catching classes that do not inherit from BaseException is
not allowed`, and the final `except Exception` clause is never
consulted. -/
def handleExcept (e : PyExc) (reference : String) : Except PyExc PyDict :=
  match e with
  | .clientConnectionError =>
    .ok [("error", "Connection error"), ("reference", reference),
         ("message", "Could not connect to the Bible API. Please check your internet connection.")]
  | _ => .error .typeErrorBadExceptClause

/-- Model of `BibleService.get_verse` (bible_service.py lines 21–97) as a
function of the reference and the HTTP outcome. `Except.ok` is a normal
return; `Except.error` is an exception escaping the method. -/
def get_verse (reference : String) (o : FetchOutcome) : Except PyExc PyDict :=
  match o with
  | .status 200 data => .ok data
  | .status 404 _ =>
    .ok [("error", "Verse not found"), ("reference", reference),
         ("message", "Please check the verse reference and try again. Make sure the book name, chapter, and verse are correct.")]
  | .status code _ =>
    .ok [("error", "API error"), ("reference", reference),
         ("message", "The Bible API returned an error (Status: " ++ toString code ++ ")")]
  | .raised e => handleExcept e reference

/-- Decidable check that a (lowercased) character chunk `L` is a
book-name occurrence resolving to canonical `name`: either a single
whitespace-free token the table maps to `name`, or a numbered-book pair
`nt ++ ' ' :: bw` whose two-token key the table maps to `name`. Used to
state table-wide facts that `decide` can evaluate. -/
def bookChunkOK (L : List Char) (name : String) : Bool :=
  match splitSep ' ' L with
  | [tok] =>
    !tok.isEmpty && tok.all (fun ch => !isWs ch) &&
      (lookupBook (normTok tok) == some name) && (L == tok)
  | [nt, bw] =>
    isBookNum nt && !bw.isEmpty && bw.all (fun ch => !isWs ch) &&
      (lookupBook (normTok nt ++ ' ' :: normTok bw) == some name) &&
      (L == nt ++ ' ' :: bw)
  | _ => false

/-! ## Character lemmas -/

theorem charOfNat_toNat {n : Nat} (h : n < 55296) : (Char.ofNat n).toNat = n := by
  have hv : n.isValidChar := Or.inl h
  simp [Char.ofNat, hv, Char.ofNatAux, Char.toNat, UInt32.toNat]

theorem char_eq_of_toNat {c d : Char} (h : c.toNat = d.toNat) : c = d :=
  Char.eq_of_val_eq (UInt32.ext h)

theorem char_toNat_lt (c : Char) : c.toNat < 55296 ∨ 57343 < c.toNat := by
  rcases c.valid with h | ⟨h1, _⟩
  · exact Or.inl h
  · exact Or.inr h1

theorem lowerChar_toNat (c : Char) :
    (lowerChar c).toNat =
      if 65 ≤ c.toNat ∧ c.toNat ≤ 90 then c.toNat + 32 else c.toNat := by
  unfold lowerChar
  split
  · next h => exact charOfNat_toNat (by omega)
  · rfl

theorem lowerChar_idem (c : Char) : lowerChar (lowerChar c) = lowerChar c := by
  apply char_eq_of_toNat
  rw [lowerChar_toNat (lowerChar c), lowerChar_toNat c]
  by_cases h : 65 ≤ c.toNat ∧ c.toNat ≤ 90
  · rw [if_pos h, if_neg (show ¬(65 ≤ c.toNat + 32 ∧ c.toNat + 32 ≤ 90) by omega)]
  · rw [if_neg h, if_neg h]

theorem isWs_lowerChar (c : Char) : isWs (lowerChar c) = isWs c := by
  unfold isWs
  rw [decide_eq_decide, lowerChar_toNat]
  split <;> omega

theorem isDigitCh_lowerChar (c : Char) : isDigitCh (lowerChar c) = isDigitCh c := by
  unfold isDigitCh
  rw [decide_eq_decide, lowerChar_toNat]
  split <;> omega

theorem lowerChar_of_digit {c : Char} (h : isDigitCh c = true) : lowerChar c = c := by
  apply char_eq_of_toNat
  rw [lowerChar_toNat]
  simp [isDigitCh] at h
  split <;> omega

theorem isWs_of_digit {c : Char} (h : isDigitCh c = true) : isWs c = false := by
  simp [isDigitCh] at h
  simp [isWs]
  omega

theorem ne_of_toNat_ne {c d : Char} (h : c.toNat ≠ d.toNat) : c ≠ d :=
  fun he => h (congrArg Char.toNat he)

theorem digit_ne_colon {c : Char} (h : isDigitCh c = true) : c ≠ ':' := by
  simp [isDigitCh] at h
  exact ne_of_toNat_ne (by simpa using by omega)

theorem digit_ne_dash {c : Char} (h : isDigitCh c = true) : c ≠ '-' := by
  simp [isDigitCh] at h
  exact ne_of_toNat_ne (by simpa using by omega)

/-- The map `lowerChar` reflects equality with a character that is neither an
uppercase nor a lowercase ASCII letter (such as ':', '-', ' '). -/
theorem lowerChar_eq_iff {c d : Char}
    (hd : d.toNat < 65 ∨ (90 < d.toNat ∧ d.toNat < 97) ∨ 122 < d.toNat) :
    (lowerChar c = d) ↔ (c = d) := by
  constructor
  · intro h
    have ht := congrArg Char.toNat h
    rw [lowerChar_toNat] at ht
    apply char_eq_of_toNat
    split at ht <;> omega
  · intro h
    subst h
    apply char_eq_of_toNat
    rw [lowerChar_toNat]
    split <;> omega

theorem lowerChar_colon_iff (c : Char) : (lowerChar c = ':') ↔ (c = ':') :=
  lowerChar_eq_iff (by decide)

theorem lowerChar_dash_iff (c : Char) : (lowerChar c = '-') ↔ (c = '-') :=
  lowerChar_eq_iff (by decide)

theorem lowerChar_one_iff (c : Char) : (lowerChar c = '1') ↔ (c = '1') :=
  lowerChar_eq_iff (by decide)

theorem lowerChar_two_iff (c : Char) : (lowerChar c = '2') ↔ (c = '2') :=
  lowerChar_eq_iff (by decide)

theorem lowerChar_three_iff (c : Char) : (lowerChar c = '3') ↔ (c = '3') :=
  lowerChar_eq_iff (by decide)

/-- Mapping a function that fixes every element of a list is the
identity on it. -/
theorem map_eq_self_of_fixed {α : Type} {f : α → α} :
    ∀ {l : List α}, (∀ x ∈ l, f x = x) → l.map f = l
  | [], _ => rfl
  | x :: t, h => by
    simp only [List.map_cons]
    rw [h x (List.mem_cons_self x t), map_eq_self_of_fixed (fun y hy => h y (List.mem_cons_of_mem x hy))]

/-! ## Decimal rendering and parsing lemmas -/

theorem natCharsAux_eq : ∀ (fuel n : Nat), n ≤ fuel →
    natCharsAux fuel n = ((Nat.digits 10 n).reverse).map digitCh
  | 0, n, h => by
    have : n = 0 := Nat.le_zero.mp h
    subst this
    simp [natCharsAux]
  | fuel + 1, n, h => by
    by_cases hn : n = 0
    · subst hn
      simp [natCharsAux]
    · have hlt : n / 10 < n := Nat.div_lt_self (Nat.pos_of_ne_zero hn) (by omega)
      rw [natCharsAux, if_neg hn,
        natCharsAux_eq fuel (n / 10) (by omega),
        Nat.digits_def' (by omega : 1 < 10) (Nat.pos_of_ne_zero hn)]
      simp

theorem natChars_eq (n : Nat) :
    natChars n = ((Nat.digits 10 n).reverse).map digitCh :=
  natCharsAux_eq n n (Nat.le_refl n)

theorem digitCh_toNat {d : Nat} (h : d < 10) : (digitCh d).toNat = 48 + d :=
  charOfNat_toNat (by omega)

theorem isDigitCh_digitCh {d : Nat} (h : d < 10) : isDigitCh (digitCh d) = true := by
  simp [isDigitCh, digitCh_toNat h]
  omega

theorem natChars_all_digit (n : Nat) : ∀ c ∈ natChars n, isDigitCh c = true := by
  rw [natChars_eq]
  intro c hc
  rcases List.mem_map.mp hc with ⟨d, hd, rfl⟩
  exact isDigitCh_digitCh (Nat.digits_lt_base (by omega) (List.mem_reverse.mp hd))

theorem natChars_ne_nil {n : Nat} (h : 0 < n) : natChars n ≠ [] := by
  rw [natChars_eq]
  simp [Nat.digits_ne_nil_iff_ne_zero.mpr (Nat.pos_iff_ne_zero.mp h)]

/-- The fold a base-10 parse performs, over raw digit values. -/
theorem foldl_digits_eq_ofDigits : ∀ (ds : List Nat) (a : Nat),
    ds.foldl (fun a d => a * 10 + d) a =
      a * 10 ^ ds.length + Nat.ofDigits 10 ds.reverse
  | [], a => by simp [Nat.ofDigits]
  | d :: t, a => by
    rw [List.foldl_cons, foldl_digits_eq_ofDigits t (a * 10 + d)]
    simp only [List.reverse_cons, List.length_cons, Nat.ofDigits_append]
    rw [Nat.ofDigits_singleton, List.length_reverse]
    ring

theorem charsVal_map_digitCh (ds : List Nat) (h : ∀ d ∈ ds, d < 10) :
    charsVal (ds.map digitCh) = ds.foldl (fun a d => a * 10 + d) 0 := by
  unfold charsVal
  rw [List.foldl_map]
  exact List.foldl_ext _ _ 0 (fun a d hd => by rw [digitCh_toNat (h d hd)]; omega)

theorem charsVal_natChars (n : Nat) : charsVal (natChars n) = n := by
  rw [natChars_eq,
    charsVal_map_digitCh _
      (fun d hd => Nat.digits_lt_base (by omega) (List.mem_reverse.mp hd)),
    foldl_digits_eq_ofDigits, List.reverse_reverse, Nat.ofDigits_digits]
  simp

theorem isNumTok_natChars {n : Nat} (h : 0 < n) : isNumTok (natChars n) = true := by
  unfold isNumTok
  rw [Bool.and_eq_true, List.all_eq_true]
  exact ⟨by simp [natChars_ne_nil h], natChars_all_digit n⟩

theorem natChars_no_ws (n : Nat) : ∀ c ∈ natChars n, isWs c = false :=
  fun c hc => isWs_of_digit (natChars_all_digit n c hc)

theorem natChars_no_colon (n : Nat) : ∀ c ∈ natChars n, c ≠ ':' :=
  fun c hc => digit_ne_colon (natChars_all_digit n c hc)

theorem natChars_no_dash (n : Nat) : ∀ c ∈ natChars n, c ≠ '-' :=
  fun c hc => digit_ne_dash (natChars_all_digit n c hc)

theorem map_lower_natChars (n : Nat) : (natChars n).map lowerChar = natChars n :=
  map_eq_self_of_fixed (fun c hc => lowerChar_of_digit (natChars_all_digit n c hc))

/-! ## Splitting lemmas -/

theorem splitWsAux_no_ws : ∀ (l cur : List Char), (∀ c ∈ l, isWs c = false) →
    splitWsAux l cur = if cur ++ l = [] then [] else [cur ++ l]
  | [], cur, _ => by simp [splitWsAux]
  | c :: t, cur, h => by
    rw [splitWsAux, if_neg (by simp [h c (List.mem_cons_self c t)]),
      splitWsAux_no_ws t (cur ++ [c])
        (fun x hx => h x (List.mem_cons_of_mem c hx))]
    simp

theorem splitWsAux_append_space : ∀ (l1 l2 cur : List Char),
    splitWsAux (l1 ++ ' ' :: l2) cur = splitWsAux l1 cur ++ splitWsAux l2 []
  | [], l2, cur => by
    by_cases hcur : cur = [] <;>
      simp [splitWsAux, hcur, show isWs ' ' = true from rfl]
  | c :: t, l2, cur => by
    show splitWsAux (c :: (t ++ ' ' :: l2)) cur = _
    by_cases hws : isWs c = true
    · by_cases hcur : cur = [] <;>
        simp [splitWsAux, hws, hcur, splitWsAux_append_space t l2 []]
    · have h0 : isWs c = false := by simpa using hws
      rw [splitWsAux, if_neg (by simp [h0]), splitWsAux, if_neg (by simp [h0]),
        splitWsAux_append_space t l2 (cur ++ [c])]

theorem splitSepAux_no_sep (sep : Char) : ∀ (l cur : List Char),
    (∀ c ∈ l, c ≠ sep) → splitSepAux sep l cur = [cur ++ l]
  | [], cur, _ => by simp [splitSepAux]
  | c :: t, cur, h => by
    rw [splitSepAux, if_neg (h c (List.mem_cons_self c t)),
      splitSepAux_no_sep sep t (cur ++ [c])
        (fun x hx => h x (List.mem_cons_of_mem c hx))]
    simp

theorem splitSepAux_append (sep : Char) : ∀ (l1 l2 cur : List Char),
    (∀ c ∈ l1, c ≠ sep) →
    splitSepAux sep (l1 ++ sep :: l2) cur = (cur ++ l1) :: splitSepAux sep l2 []
  | [], l2, cur, _ => by simp [splitSepAux]
  | c :: t, l2, cur, h => by
    rw [List.cons_append, splitSepAux, if_neg (h c (List.mem_cons_self c t)),
      splitSepAux_append sep t l2 (cur ++ [c])
        (fun x hx => h x (List.mem_cons_of_mem c hx))]
    simp

/-- The splitter `splitWsAux` commutes with mapping a whitespace-preserving character
function over the input. -/
theorem splitWsAux_map (f : Char → Char) (hf : ∀ c, isWs (f c) = isWs c) :
    ∀ (l cur : List Char),
      splitWsAux (l.map f) (cur.map f) = (splitWsAux l cur).map (List.map f)
  | [], cur => by
    by_cases hcur : cur = [] <;> simp [splitWsAux, hcur]
  | c :: t, cur => by
    have ih0 : splitWsAux (t.map f) [] = (splitWsAux t []).map (List.map f) :=
      splitWsAux_map f hf t []
    by_cases hws : isWs c = true
    · by_cases hcur : cur = [] <;>
        simp [splitWsAux, hf, hws, hcur, ih0]
    · have h0 : isWs c = false := by simpa using hws
      have h1 : isWs (f c) = false := by rw [hf]; exact h0
      rw [List.map_cons, splitWsAux, if_neg (by simp [h1]),
        splitWsAux, if_neg (by simp [h0])]
      have ih := splitWsAux_map f hf t (cur ++ [c])
      simpa using ih

/-- The splitter `splitSepAux` commutes with mapping a separator-reflecting character
function over the input. -/
theorem splitSepAux_map (f : Char → Char) (sep : Char)
    (hf : ∀ c, (f c = sep) ↔ (c = sep)) :
    ∀ (l cur : List Char),
      splitSepAux sep (l.map f) (cur.map f) = (splitSepAux sep l cur).map (List.map f)
  | [], cur => by simp [splitSepAux]
  | c :: t, cur => by
    have ih0 : splitSepAux sep (t.map f) [] = (splitSepAux sep t []).map (List.map f) :=
      splitSepAux_map f sep hf t []
    by_cases hc : c = sep
    · have h1 : f c = sep := (hf c).mpr hc
      simp only [List.map_cons, splitSepAux, if_pos h1, if_pos hc, List.map]
      rw [ih0]
    · rw [List.map_cons, splitSepAux, if_neg (fun h => hc ((hf c).mp h)),
        splitSepAux, if_neg hc]
      have ih := splitSepAux_map f sep hf t (cur ++ [c])
      simpa using ih

/-! ## parseCV lemmas -/

theorem splitSep_colon_render (c v : Nat) :
    splitSep ':' (natChars c ++ ':' :: natChars v) = [natChars c, natChars v] := by
  unfold splitSep
  rw [splitSepAux_append ':' (natChars c) (natChars v) [] (natChars_no_colon c),
    splitSepAux_no_sep ':' (natChars v) [] (natChars_no_colon v)]
  rfl

theorem parseCV_render_single {c v : Nat} (hc : 0 < c) (hv : 0 < v) :
    parseCV (natChars c ++ ':' :: natChars v) = .ok c v none := by
  have hdash : splitSep '-' (natChars v) = [natChars v] := by
    unfold splitSep
    rw [splitSepAux_no_sep '-' (natChars v) [] (natChars_no_dash v)]
    rfl
  simp only [parseCV, splitSep_colon_render c v, hdash,
    if_pos (isNumTok_natChars hc), if_pos (isNumTok_natChars hv),
    charsVal_natChars]
  rw [if_pos ⟨hc, hv⟩]

theorem parseCV_render_range {c a b : Nat} (hc : 0 < c) (ha : 0 < a) (hb : 0 < b) :
    parseCV (natChars c ++ ':' :: (natChars a ++ '-' :: natChars b)) =
      if b < a then .malformed else .ok c a (some b) := by
  have hsplit : splitSep ':' (natChars c ++ ':' :: (natChars a ++ '-' :: natChars b)) =
      [natChars c, natChars a ++ '-' :: natChars b] := by
    unfold splitSep
    rw [splitSepAux_append ':' (natChars c) _ [] (natChars_no_colon c),
      splitSepAux_no_sep ':' _ []
        (by
          intro x hx
          rcases List.mem_append.mp hx with h | h
          · exact natChars_no_colon a x h
          · rcases List.mem_cons.mp h with h | h
            · subst h; decide
            · exact natChars_no_colon b x h)]
    rfl
  have hsplit2 : splitSep '-' (natChars a ++ '-' :: natChars b) =
      [natChars a, natChars b] := by
    unfold splitSep
    rw [splitSepAux_append '-' (natChars a) (natChars b) [] (natChars_no_dash a),
      splitSepAux_no_sep '-' (natChars b) [] (natChars_no_dash b)]
    rfl
  simp only [parseCV, hsplit, hsplit2, if_pos (isNumTok_natChars hc),
    if_pos (show (isNumTok (natChars a) && isNumTok (natChars b)) = true by
      simp [isNumTok_natChars ha, isNumTok_natChars hb]),
    charsVal_natChars]
  rw [if_pos (show 0 < c ∧ 0 < a ∧ 0 < b from ⟨hc, ha, hb⟩)]

theorem isNumTok_map_lower (l : List Char) :
    isNumTok (l.map lowerChar) = isNumTok l := by
  unfold isNumTok
  have h1 : (l.map lowerChar).isEmpty = l.isEmpty := by cases l <;> rfl
  have h2 : ∀ (t : List Char), (t.map lowerChar).all isDigitCh = t.all isDigitCh := by
    intro t
    induction t with
    | nil => rfl
    | cons c r ih => simp only [List.map_cons, List.all_cons, isDigitCh_lowerChar, ih]
  rw [h1, h2]

theorem charsVal_map_lower_of_digits {l : List Char}
    (h : ∀ c ∈ l, isDigitCh c = true) :
    charsVal (l.map lowerChar) = charsVal l := by
  rw [map_eq_self_of_fixed (fun c hc => lowerChar_of_digit (h c hc))]

theorem isNumTok_all_digits {l : List Char} (h : isNumTok l = true) :
    ∀ c ∈ l, isDigitCh c = true := by
  unfold isNumTok at h
  rw [Bool.and_eq_true, List.all_eq_true] at h
  exact h.2

theorem parseCV_map_lower (l : List Char) :
    parseCV (l.map lowerChar) = parseCV l := by
  have hcolon : splitSep ':' (l.map lowerChar) =
      (splitSep ':' l).map (List.map lowerChar) := by
    unfold splitSep
    have := splitSepAux_map lowerChar ':' lowerChar_colon_iff l []
    simpa using this
  unfold parseCV
  rw [hcolon]
  rcases h : splitSep ':' l with _ | ⟨cs, _ | ⟨vs, _ | _⟩⟩ <;>
    simp only [List.map_cons, List.map_nil]
  rw [isNumTok_map_lower]
  by_cases hcs : isNumTok cs = true
  · rw [if_pos hcs, if_pos hcs]
    have hcsfix : cs.map lowerChar = cs :=
      map_eq_self_of_fixed (fun c hc => lowerChar_of_digit (isNumTok_all_digits hcs c hc))
    rw [hcsfix]
    have hdash : splitSep '-' (vs.map lowerChar) =
        (splitSep '-' vs).map (List.map lowerChar) := by
      unfold splitSep
      have := splitSepAux_map lowerChar '-' lowerChar_dash_iff vs []
      simpa using this
    rw [hdash]
    rcases h2 : splitSep '-' vs with _ | ⟨v1, _ | ⟨v2, _ | _⟩⟩ <;>
      simp only [List.map_cons, List.map_nil]
    · rw [isNumTok_map_lower]
      by_cases hv1 : isNumTok v1 = true
      · rw [if_pos hv1, if_pos hv1,
          map_eq_self_of_fixed (fun c hc => lowerChar_of_digit (isNumTok_all_digits hv1 c hc))]
      · rw [if_neg (by simpa using hv1), if_neg (by simpa using hv1)]
    · rw [isNumTok_map_lower, isNumTok_map_lower]
      by_cases hv12 : (isNumTok v1 && isNumTok v2) = true
      · rw [if_pos hv12, if_pos hv12]
        rw [Bool.and_eq_true] at hv12
        rw [map_eq_self_of_fixed (fun c hc => lowerChar_of_digit (isNumTok_all_digits hv12.1 c hc)),
          map_eq_self_of_fixed (fun c hc => lowerChar_of_digit (isNumTok_all_digits hv12.2 c hc))]
      · rw [if_neg (by simpa using hv12), if_neg (by simpa using hv12)]
  · rw [if_neg (by simpa using hcs), if_neg (by simpa using hcs)]

/-! ## Case-insensitivity of the resolver -/

theorem normTok_map_lower (l : List Char) :
    normTok (l.map lowerChar) = normTok l := by
  unfold normTok
  rw [List.map_map]
  congr 1
  induction l with
  | nil => rfl
  | cons c t ih => simp only [List.map_cons, Function.comp_apply, lowerChar_idem, ih]

theorem isBookNum_map_lower (l : List Char) :
    isBookNum (l.map lowerChar) = isBookNum l := by
  unfold isBookNum
  rcases l with _ | ⟨c, _ | ⟨d, t⟩⟩
  · rfl
  · simp only [List.map_cons, List.map_nil]
    rw [show (decide ([lowerChar c] = ['1']) : Bool) = decide ([c] = ['1']) from by
        rw [decide_eq_decide]; simp [lowerChar_one_iff c],
      show (decide ([lowerChar c] = ['2']) : Bool) = decide ([c] = ['2']) from by
        rw [decide_eq_decide]; simp [lowerChar_two_iff c],
      show (decide ([lowerChar c] = ['3']) : Bool) = decide ([c] = ['3']) from by
        rw [decide_eq_decide]; simp [lowerChar_three_iff c]]
  · simp

theorem candSingle_map_lower (t : List Char) (rest : List (List Char)) :
    candSingle (t.map lowerChar) (rest.map (List.map lowerChar)) = candSingle t rest := by
  unfold candSingle
  rcases rest with _ | ⟨t2, rest'⟩
  · rfl
  · simp only [List.map_cons]
    rw [normTok_map_lower, parseCV_map_lower]

theorem candAt_map_lower (t : List Char) (rest : List (List Char)) :
    candAt (t.map lowerChar) (rest.map (List.map lowerChar)) = candAt t rest := by
  unfold candAt
  rcases rest with _ | ⟨t2, _ | ⟨t3, rest'⟩⟩
  · exact candSingle_map_lower t []
  · exact candSingle_map_lower t [t2]
  · simp only [List.map_cons]
    rw [isBookNum_map_lower, normTok_map_lower, normTok_map_lower,
      parseCV_map_lower]
    by_cases hn : isBookNum t = true
    · rw [if_pos hn, if_pos hn]
      rcases lookupBook (normTok t ++ ' ' :: normTok t2) with _ | bk
      · exact candSingle_map_lower t (t2 :: t3 :: rest')
      · rfl
    · rw [if_neg hn, if_neg hn]
      exact candSingle_map_lower t (t2 :: t3 :: rest')

theorem resolveTokens_map_lower : ∀ (ts : List (List Char)),
    resolveTokens (ts.map (List.map lowerChar)) = resolveTokens ts
  | [] => rfl
  | t :: rest => by
    simp only [List.map_cons, resolveTokens]
    rw [candAt_map_lower t rest]
    rcases candAt t rest with _ | _ | r
    · exact resolveTokens_map_lower rest
    · rfl
    · rfl

/-- Lowercasing the whole input does not change what the resolver
finds: the spec's case-insensitive matching, at the top level. -/
theorem resolveChars_map_lower (l : List Char) :
    resolveChars (l.map lowerChar) = resolveChars l := by
  unfold resolveChars splitWs
  have h := splitWsAux_map lowerChar isWs_lowerChar l []
  simp only [List.map_nil] at h
  rw [h, resolveTokens_map_lower]

/-! ## Resolution of well-shaped inputs -/

theorem isBookNum_cases {nt : List Char} (h : isBookNum nt = true) :
    nt = ['1'] ∨ nt = ['2'] ∨ nt = ['3'] := by
  unfold isBookNum at h
  simp at h
  tauto

/-- A single-token book name followed by one chapter:verse-shaped token:
resolution is decided by the table lookup and the `parseCV` outcome. -/
theorem resolveChars_single (tok cv : List Char) (name : String)
    (h1 : tok ≠ []) (h2 : ∀ ch ∈ tok, isWs ch = false)
    (h3 : lookupBook (normTok tok) = some name)
    (h4 : cv ≠ []) (h5 : ∀ ch ∈ cv, isWs ch = false) :
    resolveChars (tok ++ ' ' :: cv) =
      match parseCV cv with
      | .ok c a e => some ⟨name, c, a, e⟩
      | .malformed => none
      | .notCV => none := by
  unfold resolveChars splitWs
  rw [splitWsAux_append_space tok cv [],
    splitWsAux_no_ws tok [] h2, splitWsAux_no_ws cv [] h5,
    if_neg (by simpa using h1), if_neg (by simpa using h4)]
  show resolveTokens [tok, cv] = _
  rw [resolveTokens, show candAt tok [cv] = candSingle tok [cv] from rfl]
  rw [show candSingle tok [cv] =
      (match parseCV cv with
       | .ok c a e => Cand.found ⟨name, c, a, e⟩
       | .malformed => Cand.bad
       | .notCV => Cand.no) from by
    unfold candSingle
    rw [h3]]
  rcases parseCV cv with _ | _ | ⟨c, a, e⟩
  · show resolveTokens [cv] = none
    rw [resolveTokens]
    rfl
  · show (none : Option CanonicalReference) = none
    rfl
  · show some (⟨name, c, a, e⟩ : CanonicalReference) = some ⟨name, c, a, e⟩
    rfl

/-- A numbered-book token pair followed by one chapter:verse-shaped
token parsing successfully: the numbered book is found. -/
theorem resolveChars_numbered (nt bw cv : List Char) (name : String)
    (hn : isBookNum nt = true)
    (hbw1 : bw ≠ []) (hbw2 : ∀ ch ∈ bw, isWs ch = false)
    (hlk : lookupBook (normTok nt ++ ' ' :: normTok bw) = some name)
    (h4 : cv ≠ []) (h5 : ∀ ch ∈ cv, isWs ch = false)
    {c a : Nat} {e : Option Nat} (hp : parseCV cv = .ok c a e) :
    resolveChars (nt ++ ' ' :: (bw ++ ' ' :: cv)) = some ⟨name, c, a, e⟩ := by
  have hnt1 : nt ≠ [] := by
    rcases isBookNum_cases hn with h | h | h <;> simp [h]
  have hnt2 : ∀ ch ∈ nt, isWs ch = false := by
    rcases isBookNum_cases hn with h | h | h <;> subst h <;> decide
  unfold resolveChars splitWs
  rw [splitWsAux_append_space nt _ [], splitWsAux_append_space bw cv [],
    splitWsAux_no_ws nt [] hnt2, splitWsAux_no_ws bw [] hbw2,
    splitWsAux_no_ws cv [] h5,
    if_neg (by simpa using hnt1), if_neg (by simpa using hbw1),
    if_neg (by simpa using h4)]
  show resolveTokens [nt, bw, cv] = _
  rw [resolveTokens,
    show candAt nt [bw, cv] =
      (if isBookNum nt = true then
        match lookupBook (normTok nt ++ ' ' :: normTok bw) with
        | some book =>
          match parseCV cv with
          | .ok c v e => Cand.found ⟨book, c, v, e⟩
          | .malformed => Cand.bad
          | .notCV => Cand.no
        | none => candSingle nt [bw, cv]
      else candSingle nt [bw, cv]) from rfl,
    if_pos hn, hlk, hp]

/-! ## Cache-key injectivity support -/

theorem countCh_cons (c a : Char) (l : List Char) :
    countCh c (a :: l) = countCh c l + (if a = c then 1 else 0) := by
  unfold countCh
  rw [List.countP_cons]
  by_cases h : a = c <;> simp [h]

theorem countCh_append (c : Char) (l1 l2 : List Char) :
    countCh c (l1 ++ l2) = countCh c l1 + countCh c l2 :=
  List.countP_append _ _ _

theorem countCh_eq_zero {c : Char} {l : List Char}
    (h : ∀ x ∈ l, x ≠ c) : countCh c l = 0 := by
  unfold countCh
  rw [List.countP_eq_zero]
  intro x hx
  simpa using h x hx

/-- Splitting a concatenation at the first separator colon is
unambiguous when neither left part contains a colon. -/
theorem key_inj0 : ∀ (r r' p p' : List Char), countCh ':' r = 0 →
    countCh ':' r' = 0 → r ++ ':' :: p = r' ++ ':' :: p' → r = r' ∧ p = p'
  | [], [], p, p', _, _, h => by simpa using h
  | [], b :: r', p, p', _, h2, h => by
    simp only [List.nil_append, List.cons_append, List.cons.injEq] at h
    rw [countCh_cons, ← h.1] at h2
    simp at h2
  | a :: r, [], p, p', h1, _, h => by
    simp only [List.nil_append, List.cons_append, List.cons.injEq] at h
    rw [countCh_cons, h.1] at h1
    simp at h1
  | a :: r, b :: r', p, p', h1, h2, h => by
    simp only [List.cons_append, List.cons.injEq] at h
    rw [countCh_cons] at h1 h2
    have ih := key_inj0 r r' p p' (by omega) (by omega) h.2
    exact ⟨by rw [h.1, ih.1], ih.2⟩

/-- Splitting a concatenation at the second separator colon is
unambiguous when both left parts contain exactly one colon. -/
theorem key_inj1 : ∀ (r r' p p' : List Char), countCh ':' r = 1 →
    countCh ':' r' = 1 → r ++ ':' :: p = r' ++ ':' :: p' → r = r' ∧ p = p'
  | [], _, _, _, h1, _, _ => by simp [countCh] at h1
  | _ :: _, [], _, _, _, h2, _ => by simp [countCh] at h2
  | a :: r, b :: r', p, p', h1, h2, h => by
    simp only [List.cons_append, List.cons.injEq] at h
    rw [countCh_cons] at h1 h2
    by_cases ha : a = ':'
    · have hb : b = ':' := by rw [← h.1, ha]
      rw [if_pos ha] at h1
      rw [if_pos hb] at h2
      have ih := key_inj0 r r' p p' (by omega) (by omega) h.2
      exact ⟨by rw [h.1, ih.1], ih.2⟩
    · have hb : ¬ b = ':' := by rw [← h.1]; exact ha
      rw [if_neg ha] at h1
      rw [if_neg hb] at h2
      have ih := key_inj1 r r' p p' (by omega) (by omega) h.2
      exact ⟨by rw [h.1, ih.1], ih.2⟩

theorem string_ext {s t : String} (h : s.toList = t.toList) : s = t := by
  cases s with
  | mk d1 =>
    cases t with
    | mk d2 => exact congrArg String.mk (by simpa using h)

theorem candSingle_found {t : List Char} {rest : List (List Char)}
    {r : CanonicalReference} (h : candSingle t rest = .found r) :
    ∃ k, lookupBook k = some r.book := by
  unfold candSingle at h
  split at h
  · split at h
    · split at h
      · cases h
        exact ⟨_, by assumption⟩
      · exact absurd h (by simp)
      · exact absurd h (by simp)
    · exact absurd h (by simp)
  · exact absurd h (by simp)

theorem candAt_found {t : List Char} {rest : List (List Char)}
    {r : CanonicalReference} (h : candAt t rest = .found r) :
    ∃ k, lookupBook k = some r.book := by
  unfold candAt at h
  split at h
  · split at h
    · split at h
      · split at h
        · cases h
          exact ⟨_, by assumption⟩
        · exact absurd h (by simp)
        · exact absurd h (by simp)
      · exact candSingle_found h
    · exact candSingle_found h
  · exact candSingle_found h

theorem resolveTokens_book : ∀ {ts : List (List Char)} {r : CanonicalReference},
    resolveTokens ts = some r → ∃ k, lookupBook k = some r.book := by
  intro ts
  induction ts with
  | nil => intro r h; cases h
  | cons t rest ih =>
    intro r h
    unfold resolveTokens at h
    split at h
    · next r' heq =>
      cases h
      exact candAt_found heq
    · cases h
    · exact ih h

theorem lookupBook_mem {k : List Char} {nm : String}
    (h : lookupBook k = some nm) : ∃ e ∈ bookTable, nm = e.1 := by
  unfold lookupBook at h
  rcases hf : bookTable.find? (fun e =>
      e.2.any (fun ab => (ab.toList.map lowerChar) = k)) with _ | e
  · rw [hf] at h
    cases h
  · rw [hf] at h
    simp at h
    exact ⟨e, List.mem_of_find?_eq_some hf, h.symm⟩

theorem bookTable_no_colon : ∀ e ∈ bookTable, countCh ':' e.1.toList = 0 := by
  decide

theorem resolve_book_no_colon {q : String} {r : CanonicalReference}
    (h : resolve q = some r) : countCh ':' r.book.toList = 0 := by
  rcases resolveTokens_book h with ⟨k, hk⟩
  rcases lookupBook_mem hk with ⟨e, he, hbe⟩
  rw [hbe]
  exact bookTable_no_colon e he

theorem refText_colon_one {r : CanonicalReference}
    (h : countCh ':' r.book.toList = 0) :
    countCh ':' (refText r).toList = 1 := by
  show countCh ':' (r.book.toList ++ ' ' :: natChars r.chapter ++ ':' ::
    natChars r.verseStart ++ (match r.verseEnd with
      | none => []
      | some e => '-' :: natChars e)) = 1
  rw [countCh_append, countCh_append, countCh_append, h,
    countCh_cons, countCh_cons,
    countCh_eq_zero (natChars_no_colon r.chapter),
    countCh_eq_zero (natChars_no_colon r.verseStart)]
  rcases r.verseEnd with _ | e
  · simp [countCh]
  · rw [countCh_cons, countCh_eq_zero (natChars_no_colon e)]
    simp

/-! ## Claims about the ResultCache -/

/-- C2: for every key `k`, payload `p` and positive ttl, a successful
`set(k, p, ttl)` followed, before expiry, by `get(k)` returns `p`
unchanged byte-for-byte. -/
theorem claim_C2_roundtrip (st : Store) (k : String) (p : List Nat)
    (ttl now now' : Nat) (httl : 0 < ttl) (hfresh : now' < now + ttl) :
    (cacheSet st k p ttl now true).2 = .success ∧
    cacheGet (cacheSet st k p ttl now true).1 k now' = some p := by
  constructor
  · rfl
  · show cacheGet (fun k' => if k' = k then .good ⟨k, p, now, ttl⟩ else st k') k now' = some p
    have hval : entryValid ⟨k, p, now, ttl⟩ now' = true := by
      simp [entryValid]
      omega
    simp [cacheGet, hval]

theorem claim_C2_roundtrip_witness :
    (0 : Nat) < 3600 ∧ (10 : Nat) < 0 + 3600 ∧
    ((cacheSet (fun _ => FileState.absent) "k" [1, 2, 3] 3600 0 true).2 = .success ∧
     cacheGet (cacheSet (fun _ => FileState.absent) "k" [1, 2, 3] 3600 0 true).1 "k" 10 =
       some [1, 2, 3]) :=
  ⟨by decide, by decide,
    claim_C2_roundtrip (fun _ => FileState.absent) "k" [1, 2, 3] 3600 0 10
      (by decide) (by decide)⟩

/-- C3: `get` returns Miss exactly when no valid entry exists (absent,
expired, or otherwise unusable), where an entry is valid iff
`now < createdAt + ttl`; and any returned payload comes from a valid
entry. -/
theorem claim_C3_expiry (st : Store) (k : String) (now : Nat) :
    (cacheGet st k now = none ↔
      ¬ ∃ e, st k = .good e ∧ entryValid e now = true) ∧
    (∀ p, cacheGet st k now = some p →
      ∃ e, st k = .good e ∧ entryValid e now = true ∧ e.payload = p) := by
  unfold cacheGet
  rcases hst : st k with _ | e | _ | _
  · exact ⟨by simp [hst], fun p hp => by simp at hp⟩
  · by_cases hv : entryValid e now = true
    · refine ⟨by simp [hst, hv], fun p hp => ?_⟩
      simp [hv] at hp
      exact ⟨e, rfl, hv, hp⟩
    · refine ⟨by simp [hst, hv], fun p hp => ?_⟩
      simp [hv] at hp
  · exact ⟨by simp [hst], fun p hp => by simp at hp⟩
  · exact ⟨by simp [hst], fun p hp => by simp at hp⟩

theorem claim_C3_expiry_witness :
    (cacheGet (fun _ => FileState.good ⟨"k", [9], 0, 5⟩) "k" 7 = none ↔
      ¬ ∃ e, (fun _ => FileState.good ⟨"k", [9], 0, 5⟩ : Store) "k" = .good e ∧
        entryValid e 7 = true) ∧
    (∀ p, cacheGet (fun _ => FileState.good ⟨"k", [9], 0, 5⟩) "k" 7 = some p →
      ∃ e, (fun _ => FileState.good ⟨"k", [9], 0, 5⟩ : Store) "k" = .good e ∧
        entryValid e 7 = true ∧ e.payload = p) :=
  claim_C3_expiry (fun _ => FileState.good ⟨"k", [9], 0, 5⟩) "k" 7

/-- C4: an unreadable or corrupted storage unit degrades `get` to Miss,
and a failed write leaves the store untouched and reports (never
raises) an Error; both operations are total functions of their
inputs. -/
theorem claim_C4_degradation (st : Store) (k : String) (now ttl : Nat)
    (p : List Nat) :
    (st k = .unreadable → cacheGet st k now = none) ∧
    (st k = .corrupt → cacheGet st k now = none) ∧
    cacheSet st k p ttl now false = (st, .error) :=
  ⟨fun h => by simp [cacheGet, h], fun h => by simp [cacheGet, h], rfl⟩

theorem claim_C4_degradation_witness :
    cacheGet (fun _ => FileState.unreadable) "k" 0 = none ∧
    cacheGet (fun _ => FileState.corrupt) "k" 0 = none ∧
    cacheSet (fun _ => FileState.corrupt) "k" [7] 60 0 false =
      ((fun _ => FileState.corrupt), .error) :=
  ⟨(claim_C4_degradation (fun _ => FileState.unreadable) "k" 0 60 [7]).1 rfl,
   (claim_C4_degradation (fun _ => FileState.corrupt) "k" 0 60 [7]).2.1 rfl,
   (claim_C4_degradation (fun _ => FileState.corrupt) "k" 0 60 [7]).2.2⟩

/-- C5: under any interleaving of the write-to-temporary-then-rename
protocol by N writers on one key, a reader observes Miss or exactly one
of the N complete payloads — never a torn entry. -/
theorem claim_C5_atomic_publish {n : Nat} (pay : Fin n → List Nat)
    (tr : List (RaceAction n)) (s0 : RaceState n) (h0 : s0.final = none) :
    raceRead (raceRun pay s0 tr) = none ∨
      ∃ i, raceRead (raceRun pay s0 tr) = some (pay i) := by
  have inv : ∀ (tr' : List (RaceAction n)) (s : RaceState n),
      (s.final = none ∨ ∃ i, s.final = some (pay i)) →
      ((raceRun pay s tr').final = none ∨
        ∃ i, (raceRun pay s tr').final = some (pay i)) := by
    intro tr'
    induction tr' with
    | nil => exact fun s h => h
    | cons a rest ih =>
      intro s h
      show (raceRun pay (raceStep pay s a) rest).final = none ∨ _
      apply ih
      rcases a with i | i
      · simpa [raceStep] using h
      · by_cases hc : s.temp i = pay i
        · right
          exact ⟨i, by simp [raceStep, hc]⟩
        · rw [show raceStep pay s (.publish i) = s by simp [raceStep, hc]]
          exact h
  exact inv tr s0 (Or.inl h0)

theorem claim_C5_atomic_publish_witness :
    raceRead (raceRun (fun i => if i = 0 then [1, 2] else [3])
      (⟨fun _ => [], none⟩ : RaceState 2)
      [.write 1, .publish 1, .write 0, .publish 0]) = none ∨
    ∃ i : Fin 2, raceRead (raceRun (fun i => if i = 0 then [1, 2] else [3])
      (⟨fun _ => [], none⟩ : RaceState 2)
      [.write 1, .publish 1, .write 0, .publish 0]) =
        some (if i = 0 then [1, 2] else [3]) :=
  claim_C5_atomic_publish (fun i => if i = 0 then [1, 2] else [3])
    [.write 1, .publish 1, .write 0, .publish 0] ⟨fun _ => [], none⟩ rfl

/-! ## Claims about the agent front-end -/

/-- C1: the cache key is the pure function
`f"{verse_reference}:{user_prompt}"` of the resolved reference's text
and the (stripped) query text, and on resolver outputs it is injective:
keys agree exactly when both components agree. -/
theorem claim_C1_cache_key (q q' : String) (r r' : CanonicalReference)
    (hq : resolve q = some r) (hq' : resolve q' = some r') :
    cacheKey (refText r) q = cacheKey (refText r') q' ↔
      (refText r = refText r' ∧ q = q') := by
  constructor
  · intro h
    have hl : (refText r).toList ++ ':' :: q.toList =
        (refText r').toList ++ ':' :: q'.toList := by
      have h2 := congrArg String.toList h
      simpa [cacheKey] using h2
    obtain ⟨ha, hb⟩ := key_inj1 _ _ _ _
      (refText_colon_one (resolve_book_no_colon hq))
      (refText_colon_one (resolve_book_no_colon hq')) hl
    exact ⟨string_ext ha, string_ext hb⟩
  · rintro ⟨h1, h2⟩
    rw [h1, h2]

theorem claim_C1_cache_key_witness :
    resolve "Explain John 3:16" = some ⟨"John", 3, 16, none⟩ ∧
    resolve "John 3:16 please" = some ⟨"John", 3, 16, none⟩ ∧
    (cacheKey (refText ⟨"John", 3, 16, none⟩) "Explain John 3:16" =
        cacheKey (refText ⟨"John", 3, 16, none⟩) "John 3:16 please" ↔
      (refText ⟨"John", 3, 16, none⟩ = refText ⟨"John", 3, 16, none⟩ ∧
        ("Explain John 3:16" : String) = "John 3:16 please")) :=
  ⟨by decide, by decide,
    claim_C1_cache_key "Explain John 3:16" "John 3:16 please" _ _
      (by decide) (by decide)⟩

/-- C9: greeting detection is substring containment on the lowercased
prompt, checked before any resolution or cache access: a prompt whose
stripped, lowercased text contains any fixed pattern is answered as a
greeting, even when it carries a valid verse reference (the Philippians
example contains "hi"). -/
theorem claim_C9_greeting :
    (∀ prompt : String, is_greeting (stripWs prompt.toList) = true →
      assistFront prompt = .greeting) ∧
    assistFront "Explain Philippians 4:13" = .greeting ∧
    resolve "Explain Philippians 4:13" = some ⟨"Philippians", 4, 13, none⟩ := by
  refine ⟨fun prompt h => ?_, by decide, by decide⟩
  unfold assistFront
  exact if_pos h

theorem claim_C9_greeting_witness :
    assistFront "hello" = .greeting ∧
    assistFront "Explain Philippians 4:13" = .greeting :=
  ⟨claim_C9_greeting.1 "hello" (by decide), claim_C9_greeting.2.1⟩

/-! ## Claim about BibleService.get_verse -/

/-- C10: the connection-error and HTTP-status branches of `get_verse`
return error dicts as documented, but a timeout — or any exception that
is not a `ClientConnectionError` — escapes the method: the clause
`except aiohttp.ClientTimeout` names a non-exception class, so CPython
raises a TypeError while matching it, and the catch-all clause is never
reached. -/
theorem claim_C10_get_verse :
    get_verse "John 3:16" (.raised .timeoutError) =
      .error .typeErrorBadExceptClause ∧
    get_verse "John 3:16" (.raised .otherError) =
      .error .typeErrorBadExceptClause ∧
    get_verse "John 3:16" (.raised .clientConnectionError) =
      .ok [("error", "Connection error"), ("reference", "John 3:16"),
        ("message", "Could not connect to the Bible API. Please check your internet connection.")] ∧
    get_verse "John 3:16" (.status 404 []) =
      .ok [("error", "Verse not found"), ("reference", "John 3:16"),
        ("message", "Please check the verse reference and try again. Make sure the book name, chapter, and verse are correct.")] ∧
    (∀ d, get_verse "John 3:16" (.status 200 d) = .ok d) :=
  ⟨rfl, rfl, rfl, rfl, fun _ => rfl⟩

/-! ## Claims about the ReferenceResolver -/

theorem cvSingle_no_ws (c v : Nat) :
    ∀ ch ∈ natChars c ++ ':' :: natChars v, isWs ch = false := by
  intro ch hch
  rcases List.mem_append.mp hch with h | h
  · exact natChars_no_ws c ch h
  · rcases List.mem_cons.mp h with h | h
    · subst h; decide
    · exact natChars_no_ws v ch h

theorem resolve_single_book (tok : List Char) (name : String) (c v : Nat)
    (h1 : tok ≠ []) (h2 : ∀ ch ∈ tok, isWs ch = false)
    (h3 : lookupBook (normTok tok) = some name)
    (hc : 0 < c) (hv : 0 < v) :
    resolveChars (tok ++ ' ' :: (natChars c ++ ':' :: natChars v)) =
      some ⟨name, c, v, none⟩ := by
  rw [resolveChars_single tok _ name h1 h2 h3 (by simp) (cvSingle_no_ws c v),
    parseCV_render_single hc hv]

theorem resolve_numbered_book (nt bw : List Char) (name : String) (c v : Nat)
    (hn : isBookNum nt = true) (hbw1 : bw ≠ [])
    (hbw2 : ∀ ch ∈ bw, isWs ch = false)
    (hlk : lookupBook (normTok nt ++ ' ' :: normTok bw) = some name)
    (hc : 0 < c) (hv : 0 < v) :
    resolveChars (nt ++ ' ' :: (bw ++ ' ' :: (natChars c ++ ':' :: natChars v))) =
      some ⟨name, c, v, none⟩ :=
  resolveChars_numbered nt bw _ name hn hbw1 hbw2 hlk (by simp)
    (cvSingle_no_ws c v) (parseCV_render_single hc hv)

theorem toList_book_query (t : String) (c v : Nat) :
    (t ++ " " ++ natStr c ++ ":" ++ natStr v).toList =
      t.toList ++ ' ' :: (natChars c ++ ':' :: natChars v) := by
  show (t.data ++ " ".data ++ natChars c ++ ":".data ++ natChars v) =
    t.data ++ ' ' :: (natChars c ++ ':' :: natChars v)
  simp

theorem map_lower_book_query (L : List Char) (c v : Nat) :
    (L ++ ' ' :: (natChars c ++ ':' :: natChars v)).map lowerChar =
      L.map lowerChar ++ ' ' :: (natChars c ++ ':' :: natChars v) := by
  simp [List.map_append, map_lower_natChars,
    show lowerChar ' ' = ' ' from by decide,
    show lowerChar ':' = ':' from by decide]

/-- Resolution of `"<token-text> C:V"` depends only on the lowercased
token text. -/
theorem resolve_query_lower (t : String) (c v : Nat) :
    resolve (t ++ " " ++ natStr c ++ ":" ++ natStr v) =
      resolveChars (t.toList.map lowerChar ++ ' ' :: (natChars c ++ ':' :: natChars v)) := by
  unfold resolve
  rw [toList_book_query, ← resolveChars_map_lower, map_lower_book_query]

/-- A chunk passing `bookChunkOK` resolves, followed by `" C:V"`, to
the canonical reference `⟨name, c, v⟩`. -/
theorem resolve_book_chunk (L : List Char) (name : String) (c v : Nat)
    (hc : 0 < c) (hv : 0 < v) (h : bookChunkOK L name = true) :
    resolveChars (L ++ ' ' :: (natChars c ++ ':' :: natChars v)) =
      some ⟨name, c, v, none⟩ := by
  unfold bookChunkOK at h
  rcases hsp : splitSep ' ' L with _ | ⟨tok, _ | ⟨bw, _ | rest⟩⟩ <;> rw [hsp] at h
  · cases h
  · simp only [Bool.and_eq_true, beq_iff_eq, Bool.not_eq_true',
      List.all_eq_true] at h
    obtain ⟨⟨⟨hne, hws⟩, hlk⟩, hL⟩ := h
    subst hL
    exact resolve_single_book L name c v
      (by intro hnil; rw [hnil] at hne; cases hne) hws hlk hc hv
  · simp only [Bool.and_eq_true, beq_iff_eq, Bool.not_eq_true',
      List.all_eq_true] at h
    obtain ⟨⟨⟨⟨hn, hne⟩, hws⟩, hlk⟩, hL⟩ := h
    subst hL
    rw [List.append_assoc]
    exact resolve_numbered_book tok bw name c v hn
      (by intro hnil; rw [hnil] at hne; cases hne) hws hlk hc hv
  · cases h

/-- Every table abbreviation, lowercased, with or without a trailing
period, is a book chunk for its canonical name. -/
theorem bookTable_chunkOK :
    ∀ p ∈ bookTable, ∀ ab ∈ p.2,
      bookChunkOK (ab.toList.map lowerChar) p.1 = true ∧
      bookChunkOK (ab.toList.map lowerChar ++ ['.']) p.1 = true := by
  decide

/-- Each table entry lists its own canonical name among the accepted
spellings. -/
theorem bookTable_self : ∀ p ∈ bookTable, p.1 ∈ p.2 := by
  decide

/-- C6: for every book in the mapping table, every mapped abbreviation
of it — in any letter case, with or without a trailing period — and
every valid chapter and verse, resolution agrees with the book's full
name and yields the canonical reference. -/
theorem claim_C6_abbrev_equiv (name : String) (abs : List String) (ab : String)
    (hmem : (name, abs) ∈ bookTable) (hab : ab ∈ abs) (s : String)
    (hs : s.toList.map lowerChar = ab.toList.map lowerChar ∨
          s.toList.map lowerChar = ab.toList.map lowerChar ++ ['.'])
    (c v : Nat) (hc : 0 < c) (hv : 0 < v) :
    resolve (s ++ " " ++ natStr c ++ ":" ++ natStr v) =
      resolve (name ++ " " ++ natStr c ++ ":" ++ natStr v) ∧
    resolve (name ++ " " ++ natStr c ++ ":" ++ natStr v) =
      some ⟨name, c, v, none⟩ := by
  have hchunk := bookTable_chunkOK (name, abs) hmem ab hab
  have hname : resolve (name ++ " " ++ natStr c ++ ":" ++ natStr v) =
      some ⟨name, c, v, none⟩ := by
    rw [resolve_query_lower]
    exact resolve_book_chunk _ name c v hc hv
      (bookTable_chunkOK (name, abs) hmem name (bookTable_self (name, abs) hmem)).1
  have hsres : resolve (s ++ " " ++ natStr c ++ ":" ++ natStr v) =
      some ⟨name, c, v, none⟩ := by
    rw [resolve_query_lower]
    rcases hs with h1 | h1 <;> rw [h1]
    · exact resolve_book_chunk _ name c v hc hv hchunk.1
    · exact resolve_book_chunk _ name c v hc hv hchunk.2
  exact ⟨hsres.trans hname.symm, hname⟩

theorem claim_C6_abbrev_equiv_witness :
    resolve ("MATT." ++ " " ++ natStr 7 ++ ":" ++ natStr 7) =
      resolve ("Matthew" ++ " " ++ natStr 7 ++ ":" ++ natStr 7) ∧
    resolve ("Matthew" ++ " " ++ natStr 7 ++ ":" ++ natStr 7) =
      some ⟨"Matthew", 7, 7, none⟩ :=
  claim_C6_abbrev_equiv "Matthew" ["Matthew", "Matt", "Mt"] "Matt"
    (by decide) (by decide) "MATT." (Or.inr (by decide)) 7 7
    (by decide) (by decide)

/-- C7: a leading digit token adjacent to a book word is resolved as
the numbered book, never as the bare book that is its suffix; in
particular "1 John 3:16" and "John 3:16" resolve differently. -/
theorem claim_C7_numbered_precedence :
    (∀ (nt bw cv : List Char) (rest : List (List Char)) (book : String)
        (c v : Nat) (e : Option Nat),
      isBookNum nt = true →
      lookupBook (normTok nt ++ ' ' :: normTok bw) = some book →
      parseCV cv = .ok c v e →
      resolveTokens (nt :: bw :: cv :: rest) = some ⟨book, c, v, e⟩) ∧
    resolve "1 John 3:16" ≠ resolve "John 3:16" ∧
    resolve "1 John 3:16" = some ⟨"1 John", 3, 16, none⟩ ∧
    resolve "John 3:16" = some ⟨"John", 3, 16, none⟩ := by
  refine ⟨?_, by decide, by decide, by decide⟩
  intro nt bw cv rest book c v e hn hlk hp
  rw [resolveTokens,
    show candAt nt (bw :: cv :: rest) =
      (if isBookNum nt = true then
        match lookupBook (normTok nt ++ ' ' :: normTok bw) with
        | some book =>
          match parseCV cv with
          | .ok c' v' e' => Cand.found ⟨book, c', v', e'⟩
          | .malformed => Cand.bad
          | .notCV => Cand.no
        | none => candSingle nt (bw :: cv :: rest)
      else candSingle nt (bw :: cv :: rest)) from rfl,
    if_pos hn, hlk, hp]

theorem claim_C7_numbered_precedence_witness :
    resolveTokens [['1'], ['J', 'n'], ['5', ':', '9']] =
      some ⟨"1 John", 5, 9, none⟩ :=
  claim_C7_numbered_precedence.1 ['1'] ['J', 'n'] ['5', ':', '9'] [] "1 John"
    5 9 none (by decide) (by decide) (by decide)

theorem cvRange_no_ws (c a b : Nat) :
    ∀ ch ∈ natChars c ++ ':' :: (natChars a ++ '-' :: natChars b),
      isWs ch = false := by
  intro ch hch
  rcases List.mem_append.mp hch with h | h
  · exact natChars_no_ws c ch h
  · rcases List.mem_cons.mp h with h | h
    · subst h; decide
    · rcases List.mem_append.mp h with h | h
      · exact natChars_no_ws a ch h
      · rcases List.mem_cons.mp h with h | h
        · subst h; decide
        · exact natChars_no_ws b ch h

/-- C8: a verse range `a-b` with `b < a` makes the whole resolution
NotFound rather than being swapped; a range with `a ≤ b` yields
`verseStart = a`, `verseEnd = b`. -/
theorem claim_C8_malformed_range (c a b : Nat)
    (hc : 0 < c) (ha : 0 < a) (hb : 0 < b) :
    resolve ("John " ++ natStr c ++ ":" ++ natStr a ++ "-" ++ natStr b) =
      if b < a then none else some ⟨"John", c, a, some b⟩ := by
  have hlist : ("John " ++ natStr c ++ ":" ++ natStr a ++ "-" ++ natStr b).toList =
      "John".toList ++ ' ' :: (natChars c ++ ':' :: (natChars a ++ '-' :: natChars b)) := by
    show ("John ".data ++ natChars c ++ ":".data ++ natChars a ++ "-".data ++ natChars b) =
      "John".data ++ ' ' :: (natChars c ++ ':' :: (natChars a ++ '-' :: natChars b))
    simp
  unfold resolve
  rw [hlist,
    resolveChars_single "John".toList _ "John" (by decide) (by decide) (by decide)
      (by simp) (cvRange_no_ws c a b),
    parseCV_render_range hc ha hb]
  by_cases hba : b < a
  · rw [if_pos hba, if_pos hba]
  · rw [if_neg hba, if_neg hba]

theorem claim_C8_malformed_range_witness :
    ("John " ++ natStr 3 ++ ":" ++ natStr 16 ++ "-" ++ natStr 17) = "John 3:16-17" ∧
    ("John " ++ natStr 3 ++ ":" ++ natStr 17 ++ "-" ++ natStr 16) = "John 3:17-16" ∧
    resolve "John 3:16-17" = some ⟨"John", 3, 16, some 17⟩ ∧
    resolve "John 3:17-16" = none := by
  refine ⟨by decide, by decide, ?_, ?_⟩
  · have h := claim_C8_malformed_range 3 16 17 (by decide) (by decide) (by decide)
    rw [show ("John " ++ natStr 3 ++ ":" ++ natStr 16 ++ "-" ++ natStr 17) =
      "John 3:16-17" from by decide] at h
    simpa using h
  · have h := claim_C8_malformed_range 3 17 16 (by decide) (by decide) (by decide)
    rw [show ("John " ++ natStr 3 ++ ":" ++ natStr 17 ++ "-" ++ natStr 16) =
      "John 3:17-16" from by decide] at h
    simpa using h

end BibleAgent
